import Mathlib

/-!
Shallow embedding of `coinbase_liquidation.py` (class `CoinbaseLiquidationBot`)
and verification of the specification's claims about it.

Numeric quantities are modelled as exact rationals.  Network effects
(`get_current_prices`, `create_order`) are modelled by explicit oracles passed
as parameters; timestamps are passed as opaque strings.  Where a claim hinges
on IEEE binary64 behaviour of the Python arithmetic, rounding of a real value
to the nearest double is modelled explicitly (`roundDouble` below).
-/

namespace CoinbaseLiquidation

/-- A balance entry as produced by `get_portfolio_balances` (lines 130-144):
a dict with keys `account_id`, `currency_code` (duplicated as `currency`),
`balance`, and — for portfolio balances — `usd_value`.  The `usd_value` key
may be absent for balances coming from `get_account_balances`, hence the
`Option`. -/
structure Balance where
  account_id : String
  currency_code : String
  balance : ℚ
  usd_value : Option ℚ
deriving DecidableEq

/-- An entry of the liquidation plan (dict appended at lines 282-288). -/
structure LiquidationOrder where
  currency : String
  amount : ℚ
  price_per_unit : ℚ
  usd_value : ℚ
  account_id : String
deriving DecidableEq

/-- The filter of lines 244-246: keep balances whose `currency_code` is not in
`['USDC', 'USD']` and whose `balance` is strictly positive. -/
def liqCond (b : Balance) : Bool :=
  !(b.currency_code == "USDC" || b.currency_code == "USD") && decide (0 < b.balance)

/-- The `prices` dict of lines 252-259: `get_current_prices` (modelled by the
oracle `priceOf : String → Option ℚ`, `none` meaning the lookup failed) is
consulted only for currencies of filtered balances that lack a precomputed
`usd_value`; every other key is absent from the dict. -/
def neededPrices (priceOf : String → Option ℚ) (toLiq : List Balance) :
    String → Option ℚ :=
  fun c =>
    if ((toLiq.filter (fun b => b.usd_value.isNone)).map Balance.currency_code).contains c
    then priceOf c else none

/-- The loop body of lines 263-290: use the precomputed `usd_value` when
present (with `prices.get(currency, usd_value / amount if amount > 0 else 0)`
for display), otherwise fall back to `amount * price` when a price was
fetched, otherwise skip; finally keep only values at or above the
threshold. -/
def planEntry (minThreshold : ℚ) (prices : String → Option ℚ) (b : Balance) :
    Option LiquidationOrder :=
  match b.usd_value with
  | some v =>
      let price := (prices b.currency_code).getD
        (if 0 < b.balance then v / b.balance else 0)
      if minThreshold ≤ v then
        some ⟨b.currency_code, b.balance, price, v, b.account_id⟩
      else none
  | none =>
      match prices b.currency_code with
      | some p =>
          let v := b.balance * p
          if minThreshold ≤ v then
            some ⟨b.currency_code, b.balance, p, v, b.account_id⟩
          else none
      | none => none

/-- `calculate_liquidation_plan` (lines 239-292). -/
def calculate_liquidation_plan (minThreshold : ℚ) (priceOf : String → Option ℚ)
    (balances : List Balance) : List LiquidationOrder :=
  let toLiq := balances.filter liqCond
  toLiq.filterMap (planEntry minThreshold (neededPrices priceOf toLiq))

theorem planEntry_some (t : ℚ) (P : String → Option ℚ) (b : Balance)
    (o : LiquidationOrder) (h : planEntry t P b = some o) :
    o.currency = b.currency_code ∧ o.amount = b.balance ∧
      o.account_id = b.account_id ∧ t ≤ o.usd_value := by
  unfold planEntry at h
  rcases hu : b.usd_value with _ | v <;> rw [hu] at h
  · rcases hp : P b.currency_code with _ | p <;> rw [hp] at h
    · exact absurd h (by simp)
    · simp only at h
      split at h
      · cases h
        exact ⟨rfl, rfl, rfl, by assumption⟩
      · exact absurd h (by simp)
  · simp only at h
    split at h
    · cases h
      exact ⟨rfl, rfl, rfl, by assumption⟩
    · exact absurd h (by simp)

theorem planEntry_mono (t₁ t₂ : ℚ) (ht : t₁ ≤ t₂) (P : String → Option ℚ)
    (b : Balance) (o : LiquidationOrder) (h : planEntry t₂ P b = some o) :
    planEntry t₁ P b = some o := by
  unfold planEntry at h ⊢
  rcases hu : b.usd_value with _ | v <;> rw [hu] at h
  · rcases hp : P b.currency_code with _ | p <;> rw [hp] at h
    · exact absurd h (by simp)
    · simp only at h ⊢
      split at h
      · exact if_pos (le_trans ht (by assumption)) ▸ h
      · exact absurd h (by simp)
  · simp only at h ⊢
    split at h
    · exact if_pos (le_trans ht (by assumption)) ▸ h
    · exact absurd h (by simp)

/-- **C3**: For every list of balances, no balance whose currency code is in
the cash-equivalent set (`USDC`, `USD`) produces a `LiquidationOrder` in the
plan returned by `calculate_liquidation_plan`: every order's currency is
outside that set, and deleting the cash-equivalent balances from the input
leaves the plan unchanged. -/
theorem cash_equivalents_never_liquidated
    (t : ℚ) (priceOf : String → Option ℚ) (balances : List Balance)
    (o : LiquidationOrder) (ho : o ∈ calculate_liquidation_plan t priceOf balances) :
    (o.currency ≠ "USDC" ∧ o.currency ≠ "USD") ∧
      calculate_liquidation_plan t priceOf
        (balances.filter (fun b => !(b.currency_code == "USDC" || b.currency_code == "USD")))
        = calculate_liquidation_plan t priceOf balances := by
  constructor
  · obtain ⟨b, hb, hfb⟩ := List.mem_filterMap.mp ho
    have hcond : liqCond b = true := (List.mem_filter.mp hb).2
    have hcur := (planEntry_some _ _ _ _ hfb).1
    rw [hcur]
    unfold liqCond at hcond
    simp only [Bool.and_eq_true, Bool.not_eq_eq_eq_not, Bool.not_true,
      Bool.or_eq_false_iff, beq_eq_false_iff_ne, ne_eq] at hcond
    exact ⟨hcond.1.1, hcond.1.2⟩
  · unfold calculate_liquidation_plan
    have hff : (balances.filter
        (fun b => !(b.currency_code == "USDC" || b.currency_code == "USD"))).filter liqCond
        = balances.filter liqCond := by
      rw [List.filter_filter]
      apply List.filter_congr
      intro b _
      unfold liqCond
      cases hcc : (b.currency_code == "USDC" || b.currency_code == "USD") <;> simp [hcc]
    rw [hff]

/-- **C5**: no holding below the threshold produces an order — every order in
the plan has `usd_value ≥ threshold` — and, for thresholds `t₁ ≤ t₂` over the
same balances, every order of the `t₂`-plan is also in the `t₁`-plan (raising
the threshold shrinks or preserves the plan). -/
theorem threshold_bound_and_monotone
    (priceOf : String → Option ℚ) (balances : List Balance) :
    (∀ t : ℚ, ∀ o ∈ calculate_liquidation_plan t priceOf balances, t ≤ o.usd_value) ∧
      (∀ t₁ t₂ : ℚ, t₁ ≤ t₂ →
        ∀ o ∈ calculate_liquidation_plan t₂ priceOf balances,
          o ∈ calculate_liquidation_plan t₁ priceOf balances) := by
  constructor
  · intro t o ho
    obtain ⟨b, _, hfb⟩ := List.mem_filterMap.mp ho
    exact (planEntry_some _ _ _ _ hfb).2.2.2
  · intro t₁ t₂ ht o ho
    obtain ⟨b, hb, hfb⟩ := List.mem_filterMap.mp ho
    exact List.mem_filterMap.mpr ⟨b, hb, planEntry_mono t₁ t₂ ht _ _ _ hfb⟩

/-- Outcome of one `self.client.create_order` call (lines 311-320): `ok`
when the call returns (`some oid` when the response object carries an
`order_id`/`id` attribute, `none` when neither is present so the code falls
back to the `client_order_id`), `err msg` when the call raises with
`str(e) = msg`. -/
inductive OrderOutcome where
  | ok (order_id : Option String)
  | err (msg : String)
deriving DecidableEq

/-- A result dict appended to `executed_trades` (lines 336-343, 355-363,
366-373).  A key that a branch does not set (`error` for EXECUTED/TRIAL
results) is modelled as `none`, as is an explicit `None` value. -/
structure ExecutionResult where
  currency : String
  amount : ℚ
  usd_value : ℚ
  order_id : Option String
  status : String
  error : Option String
  timestamp : String
deriving DecidableEq

/-- `pat` is a prefix of `l` (on character lists). -/
def pfxB : List Char → List Char → Bool
  | [], _ => true
  | _ :: _, [] => false
  | p :: ps, c :: cs => p == c && pfxB ps cs

/-- `pat` occurs contiguously inside `l`. -/
def hasSubL : List Char → List Char → Bool
  | [], pat => pfxB pat []
  | c :: cs, pat => pfxB pat (c :: cs) || hasSubL cs pat

/-- The Python substring test `pat in s`. -/
def containsSub (s pat : String) : Bool := hasSubL s.data pat.data

/-- One iteration of the `execute_liquidation` loop (lines 302-375),
returning the result dict appended for this trade together with the number
of `create_order` invocations the iteration performs (1 in live mode — also
when the call raises — and 0 in trial mode).  In live mode a raised error
whose message contains `"Invalid product_id"` is rewritten to
`"No USD trading pair available"` (lines 348-351). -/
def execOne (submitOrder : LiquidationOrder → OrderOutcome) (ts : String)
    (live_mode : Bool) (trade : LiquidationOrder) : ExecutionResult × Nat :=
  if live_mode then
    match submitOrder trade with
    | .ok oid =>
        ({ currency := trade.currency, amount := trade.amount,
           usd_value := trade.usd_value,
           order_id := some (oid.getD ("liquidation_" ++ trade.currency ++ "_" ++ ts)),
           status := "EXECUTED", error := none, timestamp := ts }, 1)
    | .err msg =>
        let error_msg := if containsSub msg "Invalid product_id"
          then "No USD trading pair available" else msg
        ({ currency := trade.currency, amount := trade.amount,
           usd_value := trade.usd_value, order_id := none,
           status := "FAILED", error := some error_msg, timestamp := ts }, 1)
  else
    ({ currency := trade.currency, amount := trade.amount,
       usd_value := trade.usd_value, order_id := some "TRIAL_MODE",
       status := "TRIAL", error := none, timestamp := ts }, 0)

/-- `execute_liquidation` (lines 294-377): the loop appends exactly one
result per plan entry (an empty plan returns the empty list, which the map
also gives); the second component counts `create_order` invocations. -/
def execute_liquidation (liquidation_plan : List LiquidationOrder)
    (live_mode : Bool) (submitOrder : LiquidationOrder → OrderOutcome)
    (ts : String) : List ExecutionResult × Nat :=
  (liquidation_plan.map (fun t => (execOne submitOrder ts live_mode t).1),
   (liquidation_plan.map (fun t => (execOne submitOrder ts live_mode t).2)).sum)

/-- Sample plan entry used for concrete witnesses. -/
def oBTC : LiquidationOrder := ⟨"BTC", 1/100, 65000, 650, "acct1"⟩

/-- **C1 (counterexample)**: in trial (non-live) mode the result recorded for
a planned asset has status `"TRIAL"`, not `"SIMULATED"`: the claim's status
name does not match the code. -/
theorem trial_status_is_TRIAL_not_SIMULATED :
    ((execute_liquidation [oBTC] false (fun _ => .err "boom") "T").1.map
        ExecutionResult.status) = ["TRIAL"] ∧ ("TRIAL" : String) ≠ "SIMULATED" := by
  constructor
  · rfl
  · decide

/-- **C1 (amended)**: for every liquidation plan, running
`execute_liquidation` in trial (non-live) mode yields exactly one
`ExecutionResult` per planned asset, each with status `"TRIAL"` (the dry-run
status the spec calls SIMULATED) and `order_id` `"TRIAL_MODE"`, and performs
zero `create_order` invocations, independently of the order-submission
oracle. -/
theorem trial_mode_simulates_all (plan : List LiquidationOrder)
    (submitOrder : LiquidationOrder → OrderOutcome) (ts : String) :
    execute_liquidation plan false submitOrder ts =
      (plan.map (fun t =>
        { currency := t.currency, amount := t.amount, usd_value := t.usd_value,
          order_id := some "TRIAL_MODE", status := "TRIAL", error := none,
          timestamp := ts }), 0) := by
  unfold execute_liquidation execOne
  simp

/-- **C6**: in live mode, a submission error whose message contains
`"Invalid product_id"` is recorded as a FAILED result with error
`"No USD trading pair available"`, any other submission error is recorded as
FAILED with the original message, and every plan entry still yields its own
result (the batch is never aborted: the result list has one entry per plan
entry, positionally). -/
theorem live_failure_recorded_and_batch_continues
    (plan : List LiquidationOrder) (submitOrder : LiquidationOrder → OrderOutcome)
    (ts : String) :
    (execute_liquidation plan true submitOrder ts).1.length = plan.length ∧
      ∀ (i : ℕ) (t : LiquidationOrder) (msg : String),
        plan[i]? = some t → submitOrder t = .err msg →
        (execute_liquidation plan true submitOrder ts).1[i]? = some
          ({ currency := t.currency, amount := t.amount, usd_value := t.usd_value,
             order_id := none, status := "FAILED",
             error := some (if containsSub msg "Invalid product_id"
               then "No USD trading pair available" else msg),
             timestamp := ts } : ExecutionResult) := by
  constructor
  · simp [execute_liquidation]
  · intro i t msg hit hsub
    simp [execute_liquidation, List.getElem?_map, hit, execOne, hsub]

/-- Two-entry plan and a submission oracle whose first asset has no USD
trading pair, used as the C6 witness input. -/
def planFOO : List LiquidationOrder :=
  [⟨"FOO", 5, 1, 5, "a"⟩, ⟨"BTC", 1, 2, 2, "b"⟩]

def submitFOO : LiquidationOrder → OrderOutcome := fun t =>
  if t.currency == "FOO" then .err "Invalid product_id: FOO-USD" else .ok (some "oid123")

theorem live_failure_recorded_and_batch_continues_witness :
    (execute_liquidation planFOO true submitFOO "T").1[0]? = some
        ⟨"FOO", 5, 5, none, "FAILED", some "No USD trading pair available", "T"⟩ ∧
      (execute_liquidation planFOO true submitFOO "T").1.length = 2 := by
  have h := live_failure_recorded_and_batch_continues planFOO submitFOO "T"
  constructor
  · rw [h.2 0 ⟨"FOO", 5, 1, 5, "a"⟩ "Invalid product_id: FOO-USD" rfl rfl]
    decide
  · rw [h.1]
    rfl

/-- The price dict `calculate_liquidation_plan` builds for a given input
list of balances. -/
def pricesOf (priceOf : String → Option ℚ) (balances : List Balance) :
    String → Option ℚ :=
  neededPrices priceOf (balances.filter liqCond)

/-- Sample balances (the spec's scenario quantities): a BTC holding worth
$650, a USDC holding worth $500, a DOGE holding worth $0.08. -/
def bBTC : Balance := ⟨"acct1", "BTC", 1/100, some 650⟩

def bUSDC : Balance := ⟨"acct2", "USDC", 500, some 500⟩

def bDOGE : Balance := ⟨"acct3", "DOGE", 1000, some (8/100)⟩

theorem cash_equivalents_never_liquidated_witness :
    ((oBTC.currency ≠ "USDC" ∧ oBTC.currency ≠ "USD") ∧
      calculate_liquidation_plan (1/10) (fun _ => none)
        ([bBTC].filter (fun b => !(b.currency_code == "USDC" || b.currency_code == "USD")))
        = calculate_liquidation_plan (1/10) (fun _ => none) [bBTC]) :=
  cash_equivalents_never_liquidated (1/10) (fun _ => none) [bBTC] oBTC
    (by norm_num [calculate_liquidation_plan, planEntry, neededPrices, liqCond,
      bBTC, oBTC, List.filter, List.filterMap])

theorem threshold_bound_and_monotone_witness :
    ((1 : ℚ)/10 ≤ oBTC.usd_value) ∧
      oBTC ∈ calculate_liquidation_plan (1/10) (fun _ => none) [bBTC] := by
  have h := threshold_bound_and_monotone (fun _ => none) [bBTC]
  refine ⟨h.1 (1/10) oBTC ?_, h.2 (1/10) 2 (by norm_num) oBTC ?_⟩ <;>
    norm_num [calculate_liquidation_plan, planEntry, neededPrices, liqCond,
      bBTC, oBTC, List.filter, List.filterMap]

/-- **C4 (counterexample)**: a USDC holding with positive quantity and
usd_value at or above the threshold yields no `LiquidationOrder` at all —
the claim's "every Holding with quantity > 0 and usd_value ≥ threshold"
wrongly includes cash-equivalent holdings. -/
theorem usdc_qualifying_holding_yields_no_order :
    0 < bUSDC.balance ∧ bUSDC.usd_value = some 500 ∧ ((1 : ℚ)/100) ≤ 500 ∧
      calculate_liquidation_plan (1/100) (fun _ => none) [bUSDC] = [] := by
  refine ⟨by norm_num [bUSDC], rfl, by norm_num, ?_⟩
  norm_num [calculate_liquidation_plan, planEntry, neededPrices, liqCond,
    bUSDC, List.filter, List.filterMap]

/-- **C4 (amended)**: every `Balance` with positive quantity, a precomputed
`usd_value` at or above the threshold, and a currency outside the
cash-equivalent set {USDC, USD}, contributes exactly one `LiquidationOrder`
to the plan (the plan splits around exactly one order derived from that
balance), and `execute_liquidation` appends exactly one `ExecutionResult`
per plan entry in both live and trial mode. -/
theorem qualifying_noncash_holding_one_order_one_result
    (t : ℚ) (priceOf : String → Option ℚ) (pre post : List Balance) (b : Balance)
    (v : ℚ) (live : Bool) (submitOrder : LiquidationOrder → OrderOutcome) (ts : String)
    (hc1 : b.currency_code ≠ "USDC") (hc2 : b.currency_code ≠ "USD")
    (hpos : 0 < b.balance) (hv : b.usd_value = some v) (hth : t ≤ v) :
    calculate_liquidation_plan t priceOf (pre ++ b :: post) =
      (pre.filter liqCond).filterMap
          (planEntry t (pricesOf priceOf (pre ++ b :: post))) ++
        ⟨b.currency_code, b.balance,
          ((pricesOf priceOf (pre ++ b :: post)) b.currency_code).getD (v / b.balance),
          v, b.account_id⟩ ::
        (post.filter liqCond).filterMap
          (planEntry t (pricesOf priceOf (pre ++ b :: post))) ∧
    ∀ plan : List LiquidationOrder,
      (execute_liquidation plan live submitOrder ts).1.length = plan.length := by
  have hb : liqCond b = true := by
    unfold liqCond
    simp [hc1, hc2, hpos]
  constructor
  · show ((pre ++ b :: post).filter liqCond).filterMap
        (planEntry t (pricesOf priceOf (pre ++ b :: post))) = _
    have hpb : planEntry t (pricesOf priceOf (pre ++ b :: post)) b =
        some ⟨b.currency_code, b.balance,
          ((pricesOf priceOf (pre ++ b :: post)) b.currency_code).getD (v / b.balance),
          v, b.account_id⟩ := by
      simp [planEntry, hv, hpos, hth]
    rw [List.filter_append, List.filter_cons, if_pos hb, List.filterMap_append,
      List.filterMap_cons, hpb]
  · intro plan
    simp [execute_liquidation]

theorem qualifying_noncash_holding_one_order_one_result_witness :
    calculate_liquidation_plan (1/10) (fun _ => none) ([bUSDC] ++ bBTC :: [bDOGE])
        = [oBTC] ∧
      (execute_liquidation [oBTC] false (fun _ => .err "x") "T").1.length = 1 := by
  have h := qualifying_noncash_holding_one_order_one_result (1/10) (fun _ => none)
    [bUSDC] [bDOGE] bBTC 650 false (fun _ => .err "x") "T"
    (by decide) (by decide) (by norm_num [bBTC]) rfl (by norm_num)
  refine ⟨?_, h.2 [oBTC]⟩
  rw [h.1]
  norm_num [pricesOf, planEntry, neededPrices, liqCond, bUSDC, bBTC, bDOGE, oBTC,
    List.filter, List.filterMap]

/-- A CSV cell as written by `csv.DictWriter`: a string field, a numeric
field (written via `str`), or the empty rendering of a missing key / `None`
value. -/
inductive CellVal where
  | str (s : String)
  | num (x : ℚ)
  | null
deriving DecidableEq

/-- The fixed `fieldnames` list of line 442. -/
def fieldnames : List String :=
  ["currency", "amount", "usd_value", "order_id", "status", "timestamp", "error"]

/-- The row `writer.writerow(trade)` emits for one result dict (lines
446-452): the seven fields in `fieldnames` order, with keys the dict lacks
(filled with `None` at lines 448-451) or that hold `None` rendered as the
empty value. -/
def rowOf (t : ExecutionResult) : List CellVal :=
  [.str t.currency, .num t.amount, .num t.usd_value,
   (match t.order_id with | some s => .str s | none => .null),
   .str t.status, .str t.timestamp,
   (match t.error with | some s => .str s | none => .null)]

/-- `generate_csv_report` (lines 432-455): returns the report filename and
the rows written to the file.  `open(filename, 'w')` creates/truncates the
file unconditionally; the header and data rows are written only when
`executed_trades` is nonempty (the `if executed_trades:` guard at line 440).
`ts` stands for `datetime.now().strftime("%Y%m%d_%H%M%S")`.  Logging is
omitted. -/
def generate_csv_report (executed_trades : List ExecutionResult)
    (filename : Option String) (ts : String) : String × List (List CellVal) :=
  let fname := filename.getD
    ("coinbase_liquidation_report_" ++
      (if executed_trades.any (fun t => t.status == "TRIAL") then "trial" else "live") ++
      "_" ++ ts ++ ".csv")
  (fname,
   if executed_trades.isEmpty then []
   else (fieldnames.map CellVal.str) :: executed_trades.map rowOf)

/-- **C8**: for every nonempty list of results, the report is the
seven-column header followed by one row per result; every row (header
included) has exactly seven cells, and the `order_id`/`error` fields of a
result that lacks them are rendered as the explicit empty value, so every
row has identical shape regardless of status. -/
theorem report_rows_fixed_schema (trades : List ExecutionResult)
    (filename : Option String) (ts : String) (h : trades ≠ []) :
    (generate_csv_report trades filename ts).2
        = (fieldnames.map CellVal.str) :: trades.map rowOf ∧
      (∀ row ∈ (generate_csv_report trades filename ts).2, row.length = 7) ∧
      ∀ t ∈ trades, (rowOf t).length = 7 ∧
        (t.order_id = none → (rowOf t)[3]? = some CellVal.null) ∧
        (t.error = none → (rowOf t)[6]? = some CellVal.null) := by
  have hne : trades.isEmpty = false := by
    cases trades with
    | nil => exact absurd rfl h
    | cons a l => rfl
  have hrep : (generate_csv_report trades filename ts).2
      = (fieldnames.map CellVal.str) :: trades.map rowOf := by
    simp [generate_csv_report, hne]
  refine ⟨hrep, ?_, ?_⟩
  · intro row hrow
    rw [hrep] at hrow
    rcases List.mem_cons.mp hrow with hh | hm
    · subst hh; rfl
    · obtain ⟨t, _, ht⟩ := List.mem_map.mp hm
      rw [← ht]; rfl
  · intro t _
    refine ⟨rfl, ?_, ?_⟩
    · intro h3; simp [rowOf, h3]
    · intro h6; simp [rowOf, h6]

theorem report_rows_fixed_schema_witness :
    (generate_csv_report
        [⟨"FOO", 5, 5, none, "FAILED", some "No USD trading pair available", "T"⟩,
         ⟨"BTC", 1, 650, some "oid1", "EXECUTED", none, "T"⟩] none "T").2
        = (fieldnames.map CellVal.str) ::
          [⟨"FOO", 5, 5, none, "FAILED", some "No USD trading pair available", "T"⟩,
           ⟨"BTC", 1, 650, some "oid1", "EXECUTED", none, "T"⟩].map rowOf ∧
      (rowOf ⟨"BTC", 1, 650, some "oid1", "EXECUTED", none, "T"⟩)[6]?
        = some CellVal.null := by
  have h := report_rows_fixed_schema
    [⟨"FOO", 5, 5, none, "FAILED", some "No USD trading pair available", "T"⟩,
     ⟨"BTC", 1, 650, some "oid1", "EXECUTED", none, "T"⟩] none "T" (by simp)
  exact ⟨h.1,
    (h.2.2 ⟨"BTC", 1, 650, some "oid1", "EXECUTED", none, "T"⟩ (by simp)).2.2 rfl⟩

/-- **C10**: with an empty result list, `generate_csv_report` still creates
the report file (the `open(..., 'w')` happens unconditionally) and returns
its filename, but writes neither the header row nor any data row: the file
content is empty.  With no explicit filename the default name uses mode
`live` (the `any` over an empty list is false). -/
theorem empty_report_file_created_but_empty (filename : Option String) (ts : String) :
    (generate_csv_report [] filename ts).2 = [] ∧
      (generate_csv_report [] filename ts).1 =
        filename.getD ("coinbase_liquidation_report_" ++ "live" ++ "_" ++ ts ++ ".csv") := by
  exact ⟨rfl, rfl⟩

/-- Outcome of one `self.client.get_product` call inside
`get_current_prices` (line 208 for the first attempt, line 223 for the
retry): a successfully parsed price, an `HTTPError` with the given status
code, or any other exception (`float` conversion failure included). -/
inductive FetchResult where
  | price (p : ℚ)
  | httpError (status : Nat)
  | exc
deriving DecidableEq

/-- One iteration of the `get_current_prices` loop (lines 204-234): attempt
0 is the first `get_product` call; on an `HTTPError` with status 429 the
code sleeps and retries exactly once (attempt 1) — any non-price outcome of
the retry is caught and the currency is skipped; a non-429 `HTTPError` or
any other exception skips the currency without a retry.  Returns the price
obtained (if any) together with the number of `get_product` calls made for
this currency.  The `time.sleep` pacing is not modelled. -/
def tryFetch (fetch : String → Nat → FetchResult) (currency : String) :
    Option ℚ × Nat :=
  match fetch currency 0 with
  | .price p => (some p, 1)
  | .httpError s =>
      if s = 429 then
        match fetch currency 1 with
        | .price p => (some p, 2)
        | .httpError _ => (none, 2)
        | .exc => (none, 2)
      else (none, 1)
  | .exc => (none, 1)

/-- `get_current_prices` (lines 197-237): the `prices` dict, modelled by its
lookup function; `prices[currency] = price` is a pointwise update. -/
def get_current_prices (fetch : String → Nat → FetchResult)
    (currencies : List String) : String → Option ℚ :=
  currencies.foldl (fun prices c =>
    match (tryFetch fetch c).1 with
    | some p => fun d => if d == c then some p else prices d
    | none => prices) (fun _ => none)

theorem get_current_prices_not_requested (fetch : String → Nat → FetchResult)
    (cs : List String) (acc : String → Option ℚ) (c : String) (hc : c ∉ cs) :
    cs.foldl (fun prices c =>
      match (tryFetch fetch c).1 with
      | some p => fun d => if d == c then some p else prices d
      | none => prices) acc c = acc c := by
  induction cs generalizing acc with
  | nil => rfl
  | cons c₁ cs ih =>
      have hne : c ≠ c₁ := fun he => hc (he ▸ List.mem_cons_self c₁ cs)
      have hrest : c ∉ cs := fun hm => hc (List.mem_cons_of_mem c₁ hm)
      rw [List.foldl_cons, ih _ hrest]
      cases (tryFetch fetch c₁).1 with
      | some p => simp [hne]
      | none => rfl

/-- **C9**: during price lookup, a rate-limit (HTTP 429) outcome for an
asset causes exactly one retry (two `get_product` calls in total for that
asset); when the retry also fails, the asset is given up on — it is absent
from the returned price map — and the loop proceeds to the remaining assets
exactly as if the asset had not been there. -/
theorem rate_limit_retry_once_then_skip
    (fetch : String → Nat → FetchResult) (c : String) (rest : List String)
    (h429 : fetch c 0 = .httpError 429)
    (hfail : ∀ p, fetch c 1 ≠ .price p)
    (hnotin : c ∉ rest) :
    (tryFetch fetch c).2 = 2 ∧ (tryFetch fetch c).1 = none ∧
      get_current_prices fetch (c :: rest) = get_current_prices fetch rest ∧
      get_current_prices fetch (c :: rest) c = none := by
  have ht : tryFetch fetch c = (none, 2) := by
    unfold tryFetch
    rw [h429]
    cases hf : fetch c 1 with
    | price p => exact absurd hf (hfail p)
    | httpError s => simp
    | exc => simp
  have hcons : get_current_prices fetch (c :: rest) = get_current_prices fetch rest := by
    unfold get_current_prices
    rw [List.foldl_cons, ht]
  refine ⟨by rw [ht], by rw [ht], hcons, ?_⟩
  rw [hcons]
  exact get_current_prices_not_requested fetch rest _ c hnotin

/-- Fetch oracle for the C9 witness: asset `ABC` is rate-limited on the
first call and raises on the retry; every other asset prices at $5. -/
def fetchW : String → Nat → FetchResult := fun c n =>
  if c == "ABC" then (if n == 0 then .httpError 429 else .exc) else .price 5

theorem rate_limit_retry_once_then_skip_witness :
    (tryFetch fetchW "ABC").2 = 2 ∧ (tryFetch fetchW "ABC").1 = none ∧
      get_current_prices fetchW ["ABC", "BTC"] = get_current_prices fetchW ["BTC"] ∧
      get_current_prices fetchW ["ABC", "BTC"] "ABC" = none :=
  rate_limit_retry_once_then_skip fetchW "ABC" ["BTC"] rfl
    (fun p h => by simp [fetchW] at h) (by decide)

/-- The environment a `run_liquidation` invocation observes: whether
`load_api_credentials` succeeds, what `get_portfolio_balances` returns, the
price-lookup and order-submission oracles, the configured threshold, the
mode flag, and what `input()` returns at the live confirmation prompt. -/
structure Env where
  credsOk : Bool
  balances : List Balance
  priceOf : String → Option ℚ
  min_threshold : ℚ
  live_mode : Bool
  confirmation : String
  submitOrder : LiquidationOrder → OrderOutcome
  ts : String

/-- `run_liquidation` (lines 457-537): returns the boolean the method
returns, the `executed_trades` list it produced (empty on every early
return), and the number of `create_order` invocations made.  Logging, the
plan display, and the CSV report emission (which do not affect the returned
value) are omitted.  The live-mode confirmation prompt (lines 503-510)
returns `False` — with no order submitted — whenever the typed input
differs from `'CONFIRM'`. -/
def run_liquidation (env : Env) : Bool × List ExecutionResult × Nat :=
  if !env.credsOk then (false, [], 0)
  else if env.balances.isEmpty then (true, [], 0)
  else
    let plan := calculate_liquidation_plan env.min_threshold env.priceOf env.balances
    if plan.isEmpty then (true, [], 0)
    else if env.live_mode && !(env.confirmation == "CONFIRM") then (false, [], 0)
    else
      let out := execute_liquidation plan env.live_mode env.submitOrder env.ts
      (true, out.1, out.2)

/-- The process exit code `main` (lines 540-586) produces: `bot.run_liquidation`
returning `True` falls through to a normal return (exit code 0), `False`
reaches `sys.exit(1)`. -/
def main_exit_code (env : Env) : Nat :=
  if (run_liquidation env).1 then 0 else 1

/-- Environment for the C7 counterexample: valid credentials, one
liquidatable BTC holding, live mode, and `"no"` typed at the confirmation
prompt. -/
def envCancel : Env :=
  { credsOk := true, balances := [bBTC], priceOf := fun _ => none,
    min_threshold := 1/10, live_mode := true, confirmation := "no",
    submitOrder := fun _ => .ok none, ts := "T" }

/-- **C7 (counterexample)**: typing something other than `CONFIRM` at the
live-mode prompt makes `run_liquidation` return `False` with no order
submitted, and `main` then calls `sys.exit(1)`: the process exit code is 1,
not 0 — cancellation is treated like a failure, not a normal completion. -/
theorem cancellation_exit_code_is_one :
    run_liquidation envCancel = (false, [], 0) ∧ main_exit_code envCancel = 1 ∧
      (1 : Nat) ≠ 0 := by
  have hplan : calculate_liquidation_plan ((10 : ℚ)⁻¹) (fun _ => none) [bBTC] = [oBTC] := by
    norm_num [calculate_liquidation_plan, planEntry, neededPrices, liqCond,
      bBTC, oBTC, List.filter, List.filterMap]
  have h1 : run_liquidation envCancel = (false, [], 0) := by
    simp [run_liquidation, envCancel, hplan]
  exact ⟨h1, by simp [main_exit_code, h1], by decide⟩

/-- **C7 (amended)**: when the user enters anything other than `CONFIRM` at
the live-mode prompt (credentials loaded, nonempty plan), the run aborts
with no orders submitted and no results recorded, via an early
`return False`; `main` then treats this like a failure and the process
exits with code 1 — exit code 0 is produced only when `run_liquidation`
returns `True` (completion or "nothing to do"). -/
theorem cancellation_aborts_without_orders
    (env : Env) (hcreds : env.credsOk = true) (hlive : env.live_mode = true)
    (hplan : calculate_liquidation_plan env.min_threshold env.priceOf env.balances ≠ [])
    (hconf : env.confirmation ≠ "CONFIRM") :
    run_liquidation env = (false, [], 0) ∧ main_exit_code env = 1 := by
  have hbal : env.balances.isEmpty = false := by
    cases hbe : env.balances with
    | nil =>
        exact absurd (by simp [calculate_liquidation_plan, hbe]) hplan
    | cons a l => rfl
  have hpe : (calculate_liquidation_plan env.min_threshold env.priceOf
      env.balances).isEmpty = false := by
    cases hq : calculate_liquidation_plan env.min_threshold env.priceOf env.balances with
    | nil => exact absurd hq hplan
    | cons a l => rfl
  have h1 : run_liquidation env = (false, [], 0) := by
    simp [run_liquidation, hcreds, hbal, hpe, hlive, hconf]
  exact ⟨h1, by simp [main_exit_code, h1]⟩

theorem cancellation_aborts_without_orders_witness :
    run_liquidation envCancel = (false, [], 0) ∧ main_exit_code envCancel = 1 :=
  cancellation_aborts_without_orders envCancel rfl rfl
    (by norm_num [calculate_liquidation_plan, planEntry, neededPrices, liqCond,
      envCancel, bBTC, List.filter, List.filterMap])
    (by decide)

/-- The static `precision_map` dict of `_format_amount_for_order` (lines
384-412), as an association list in source order. -/
def precision_map : List (String × ℕ) :=
  [("BTC", 8), ("ETH", 8), ("LTC", 8), ("BCH", 8), ("DOT", 8), ("LINK", 8),
   ("UNI", 8), ("AAVE", 8), ("SUSHI", 8), ("CRV", 8), ("YFI", 8), ("COMP", 8),
   ("INDEX", 8), ("CVX", 8), ("EIGEN", 8), ("KERNEL", 8), ("ETHFI", 8),
   ("USDC", 6), ("USDT", 6), ("DAI", 6), ("BUSD", 6), ("TUSD", 6),
   ("HOPR", 6), ("OMNI", 6), ("CLANKER", 6), ("LOKA", 6), ("SWELL", 6),
   ("FIS", 6), ("PENGU", 6), ("SD", 6), ("GIGA", 6), ("HFT", 6),
   ("ALT", 6), ("REZ", 6), ("SXT", 6),
   ("DOGE", 4), ("SHIB", 4), ("PEPE", 4), ("FLOKI", 4), ("BONK", 4), ("WIF", 4),
   ("PIRATE", 4), ("POPCAT", 4), ("COOKIE", 4), ("KEYCAT", 4),
   ("TURBO", 4), ("DEGEN", 4), ("MOG", 4), ("DOGINME", 4),
   ("ALEPH", 4), ("MOODENG", 4), ("AST", 4), ("PRCL", 4), ("PROMPT", 4),
   ("PNUT", 4), ("IDEX", 4), ("MDT", 4), ("SYRUP", 4),
   ("STRK", 2), ("ARB", 2), ("OP", 2), ("MATIC", 2), ("AVAX", 2), ("SOL", 2),
   ("ATOM", 2), ("NEAR", 2), ("FTM", 2), ("ONE", 2), ("ALGO", 2),
   ("EDGE", 0), ("ZORA", 0),
   ("XRP", 0), ("XLM", 0), ("ADA", 0), ("TRX", 0), ("EOS", 0), ("XTZ", 0)]

/-- `precision_map.get(currency, 6)` (line 415). -/
def precisionFor (currency : String) : ℕ :=
  (precision_map.lookup currency).getD 6

/-- The value denoted by the string `_format_amount_for_order` (lines
379-430) returns, under exact rational arithmetic: `math.floor(amount)` for
0-precision currencies, otherwise `math.floor(amount * 10^p) / 10^p`.
The `.pf` formatting and the stripping of trailing zeros (lines 424-428) do
not change the denoted value.  This is the mathematical content of the
code, ignoring binary64 rounding; `format_amount_float` models the rounding
as well. -/
def format_amount_exact (currency : String) (amount : ℚ) : ℚ :=
  let precision := precisionFor currency
  if precision = 0 then (⌊amount⌋ : ℚ)
  else (⌊amount * (10 : ℚ) ^ precision⌋ : ℚ) / (10 : ℚ) ^ precision

/-- **C2 (amended)**: for every currency symbol and every non-negative
quantity, the formatted order size interpreted at the currency's precision
`p` (from the static table, default 6) never exceeds the true quantity when
the truncation `floor(amount * 10^p) / 10^p` is computed in exact
arithmetic — the mathematical truncation never rounds up.  (The code's
binary64 evaluation of `amount * 10**p` can round the product up across an
integer boundary and break this; see `float_truncation_can_round_up`.) -/
theorem format_amount_exact_never_rounds_up (currency : String) (amount : ℚ)
    (h : 0 ≤ amount) : format_amount_exact currency amount ≤ amount := by
  unfold format_amount_exact
  by_cases hp : precisionFor currency = 0
  · simp only [hp, if_pos rfl]
    exact Int.floor_le amount
  · simp only [hp, if_false, iff_false]
    rw [div_le_iff₀ (by positivity)]
    exact Int.floor_le _

theorem format_amount_exact_never_rounds_up_witness :
    (0 ≤ (1 : ℚ)/2) ∧ format_amount_exact "BTC" (1/2) ≤ 1/2 :=
  ⟨by norm_num, format_amount_exact_never_rounds_up "BTC" (1/2) (by norm_num)⟩

/-!
Model of IEEE 754 binary64 rounding, used to settle what the Python code
computes on actual floats.  `roundDouble q` is the real value of the double
nearest to `q` (ties to even), valid for magnitudes in the normal finite
range (the fuel below covers binary exponents up to ±2048, far beyond
binary64's ±1074; subnormal underflow and overflow are not modelled — every
quantity appearing here is deep inside the normal range).
-/

/-- Divide by `2^64` until below `2^64`, returning the reduced value and the
exponent offset (a multiple of 64). -/
def coarseUp : ℕ → ℚ → ℚ × ℤ
  | 0, q => (q, 0)
  | fuel + 1, q =>
      if q < 2^64 then (q, 0)
      else
        let r := coarseUp fuel (q / 2^64)
        (r.1, r.2 + 64)

/-- Multiply by `2^64` until at least 1, returning the scaled value and the
exponent offset (a multiple of 64). -/
def coarseDown : ℕ → ℚ → ℚ × ℤ
  | 0, q => (q, 0)
  | fuel + 1, q =>
      if 1 ≤ q then (q, 0)
      else
        let r := coarseDown fuel (q * 2^64)
        (r.1, r.2 - 64)

/-- `⌊log₂ q⌋` for `q` in `[1, 2^64)`, by repeated halving. -/
def fineUp : ℕ → ℚ → ℤ
  | 0, _ => 0
  | fuel + 1, q => if q < 2 then 0 else fineUp fuel (q / 2) + 1

/-- `⌊log₂ q⌋` for a positive rational `q` (of magnitude within `2^(±2048)`). -/
def floorLog2 (q : ℚ) : ℤ :=
  if 1 ≤ q then
    let r := coarseUp 32 q
    r.2 + fineUp 64 r.1
  else
    let r := coarseDown 32 q
    r.2 + fineUp 64 r.1

/-- `2^e` in `ℚ` for an integer exponent. -/
def twoPow (e : ℤ) : ℚ := (2 : ℚ) ^ e

/-- Round a rational to the nearest integer, ties to even: the fractional
part `q - ⌊q⌋` is compared with `1/2` via `2*q ≶ 2*⌊q⌋ + 1`. -/
def rheInt (q : ℚ) : ℤ :=
  if 2 * q < 2 * (⌊q⌋ : ℚ) + 1 then ⌊q⌋
  else if 2 * (⌊q⌋ : ℚ) + 1 < 2 * q then ⌊q⌋ + 1
  else if ⌊q⌋ % 2 = 0 then ⌊q⌋ else ⌊q⌋ + 1

/-- Round a positive rational to the nearest binary64 value: 53 significant
bits, round to nearest, ties to even. -/
def roundPos (q : ℚ) : ℚ :=
  let ulp := twoPow (floorLog2 q - 52)
  (rheInt (q / ulp) : ℚ) * ulp

/-- The real value of the binary64 double nearest to `q` (normal range). -/
def roundDouble (q : ℚ) : ℚ :=
  if q = 0 then 0
  else if q < 0 then -roundPos (-q)
  else roundPos q

/-- The value denoted by the string the code actually returns when `amount`
is a Python float (IEEE binary64), for a currency of nonzero precision `p`:
the product `amount * multiplier` (line 423) and the division
`/ multiplier` round to the nearest double, `math.floor` is exact on a
double, and the `f"{floored_amount:.{precision}f}"` formatting (line 424)
denotes the double's exact value rounded half-even at `p` decimal places
(trailing-zero stripping changes nothing).  For 0-precision currencies the
code floors the double directly (line 419), which is exact. -/
def format_amount_float (currency : String) (amount : ℚ) : ℚ :=
  let precision := precisionFor currency
  if precision = 0 then (⌊amount⌋ : ℚ)
  else
    let multiplier : ℚ := (10 : ℚ) ^ precision
    let floored := roundDouble ((⌊roundDouble (amount * multiplier)⌋ : ℚ) / multiplier)
    (rheInt (floored * multiplier) : ℚ) / multiplier

set_option maxRecDepth 40000 in
set_option maxHeartbeats 4000000 in
/-- **C2 (counterexample)**: the claim fails on the code's binary64
arithmetic.  Take the Python float `0.03` — the double nearest `3/100`,
whose exact value `1080863910568919/2^55` is strictly below `3/100` — and
the currency `STRK` (precision 2 in the static table).  The code computes
`math.floor(amount * 100) / 100`: the float product `amount * 100` rounds
up to exactly `3.0`, so the function returns the string `"0.03"`, whose
value `3/100` exceeds the true quantity: truncation rounded up. -/
theorem float_truncation_can_round_up :
    0 ≤ roundDouble (3/100) ∧
      roundDouble (3/100) < format_amount_float "STRK" (roundDouble (3/100)) := by
  have hA : roundDouble (3/100) = 1080863910568919 / 36028797018963968 := by
    norm_num [roundDouble, roundPos, floorLog2, coarseUp, coarseDown, fineUp,
      twoPow, rheInt]
  have hPrec : precisionFor "STRK" = 2 := by decide
  refine ⟨by rw [hA]; norm_num, ?_⟩
  rw [hA]
  simp only [format_amount_float]
  rw [hPrec]
  norm_num [roundDouble, roundPos, floorLog2, coarseUp, coarseDown, fineUp,
    twoPow, rheInt]

end CoinbaseLiquidation
